import Mathlib

/-!
Verification of the chunk-section decoder of gdpc (src/gdpc/worldLoader.py).

The development shallowly embeds the Python code of worldLoader.py: pure
functions become Lean functions, Python exceptions become an explicit
error type threaded through Except, Python ints become Int (arbitrary
precision in both), numpy arrays become functions from index pairs to Int,
and Python dicts (which preserve insertion order) become association lists.

Some helper modules of the repository (bitarray.py, vector_util.py,
lookup.py) are imported by worldLoader.py but are not part of the sources
under verification; their definitions are modelled from the specification
document and are marked as such in their doc comments.

Library semantics used by the source and mirrored here:
* PyGLM integer vectors use C/C++ semantics: the % operator is the
  truncated remainder (negative results for negative operands; the
  repository carries a trueMod helper in vector_util precisely to
  normalize this, used at worldLoader.py line 67), and the >> operator is
  an arithmetic shift, i.e. floor division by a power of two.
* Python % on plain ints is the floored (always non-negative for a
  positive modulus) remainder, Int.emod here.
* numpy integer indexing accepts negative indices in [-n, -1] (they wrap
  around to [0, n-1]) and raises IndexError outside [-n, n-1].
-/

namespace Gdpc

/-- glm ivec2 of Python ints (arbitrary precision; gdpc only ever holds
small coordinates in them, so the 32-bit width of ivec2 never truncates). -/
structure IVec2 where
  x : Int
  y : Int
deriving DecidableEq

/-- glm ivec3. -/
structure IVec3 where
  x : Int
  y : Int
  z : Int
deriving DecidableEq

/-- Arithmetic shift right by k bits: floor division by 2^k. This is the
semantics of ivec >> k in glm (C++ arithmetic shift) and of Python's >>
on ints; Int.ediv by a positive divisor is floor division. -/
def sar (a : Int) (k : Nat) : Int := a / (2 ^ k : Int)

/-- Componentwise arithmetic shift right of an ivec3. -/
def IVec3.shr (v : IVec3) (k : Nat) : IVec3 := ⟨sar v.x k, sar v.y k, sar v.z k⟩

/-- Componentwise subtraction of ivec3. -/
instance : Sub IVec3 := ⟨fun a b => ⟨a.x - b.x, a.y - b.y, a.z - b.z⟩⟩

/-- The glm % operator on integer vectors: C/C++ truncated remainder,
applied componentwise with a scalar modulus. -/
def IVec3.tmod (v : IVec3) (m : Int) : IVec3 := ⟨Int.tmod v.x m, Int.tmod v.y m, Int.tmod v.z m⟩

/-- Python << on an int with a non-negative shift count: multiplication
by a power of two. -/
def pythonShl (a : Int) (k : Nat) : Int := a * (2 ^ k : Nat)

/-- Fueled two's-complement bitwise or on Nat. The fuel (64 everywhere in
this file) bounds the number of binary digits processed, which is exact
for all operands below 2^64; the operands that occur in the program are
tiny (local biome coordinates in (-16, 16)). A fueled definition is used
so that the kernel can evaluate it (Nat.lor is defined by well-founded
recursion and does not reduce definitionally). -/
def natOrFuel : Nat → Nat → Nat → Nat
  | 0, _, _ => 0
  | f + 1, a, b =>
    if a = 0 then b
    else if b = 0 then a
    else (max (a % 2) (b % 2)) + 2 * natOrFuel f (a / 2) (b / 2)

/-- Fueled bitwise and-not (x AND (NOT y)) on Nat; see natOrFuel. -/
def natLdiffFuel : Nat → Nat → Nat → Nat
  | 0, _, _ => 0
  | f + 1, a, b =>
    (if a % 2 = 1 ∧ b % 2 = 0 then 1 else 0) + 2 * natLdiffFuel f (a / 2) (b / 2)

/-- Fueled bitwise and on Nat; see natOrFuel. -/
def natAndFuel : Nat → Nat → Nat → Nat
  | 0, _, _ => 0
  | f + 1, a, b =>
    (if a % 2 = 1 ∧ b % 2 = 1 then 1 else 0) + 2 * natAndFuel f (a / 2) (b / 2)

/-- Python | (bitwise or) on ints, in two's complement: for a negative
operand x the bit pattern is NOT (-x-1). The four sign cases follow the
standard identities NOT (a OR b) = (NOT a) AND (NOT b). -/
def pythonOr (a b : Int) : Int :=
  match a, b with
  | Int.ofNat m, Int.ofNat n => Int.ofNat (natOrFuel 64 m n)
  | Int.ofNat m, Int.negSucc n => Int.negSucc (natLdiffFuel 64 n m)
  | Int.negSucc m, Int.ofNat n => Int.negSucc (natLdiffFuel 64 m n)
  | Int.negSucc m, Int.negSucc n => Int.negSucc (natAndFuel 64 m n)

/-- Modelled from the spec: vector_util.trueMod is not under src/. The
spec (section 4.3 step 6) describes it as the normalized, always
non-negative remainder; Int.emod by a positive modulus is exactly that. -/
def trueMod (a : Int) (m : Int) : Int := Int.emod a m

/-- Modelled from the spec: vector_util.addY is not under src/. The spec
(section 4.3) describes the subtracted vector as the chunk-rect origin
as a 3-vector with Y = 0. -/
def addY (v : IVec2) : IVec3 := ⟨v.x, 0, v.y⟩

/-- Modelled from the spec: lookup.BUILD_Y_MIN is not under src/. The
spec calls it the world floor offset; the comment at worldLoader.py
lines 91-95 identifies it as -64 (the 1.18+ lowest world Y). -/
def BUILD_Y_MIN : Int := -64

/-- Modelled from the spec: vector_util.Rect is not under src/. The spec
(section 3) describes it as a plain record of an (X, Z) origin and an
(dX, dZ) size; no validation is attached to the record itself. -/
structure Rect where
  offset : IVec2
  size : IVec2
deriving DecidableEq

/-- Python exception kinds that can escape the embedded code paths. -/
inductive PyError where
  | outOfRange
  | indexError
  | keyError
  | valueError
  | typeError
  | invalidArgument
deriving DecidableEq

instance {ε α : Type} [DecidableEq ε] [DecidableEq α] : DecidableEq (Except ε α) := fun a b =>
  match a, b with
  | Except.error x, Except.error y =>
    if h : x = y then isTrue (congrArg Except.error h)
    else isFalse (fun hc => h (by cases hc; rfl))
  | Except.ok x, Except.ok y =>
    if h : x = y then isTrue (congrArg Except.ok h)
    else isFalse (fun hc => h (by cases hc; rfl))
  | Except.error _, Except.ok _ => isFalse (fun hc => by cases hc)
  | Except.ok _, Except.error _ => isFalse (fun hc => by cases hc)

/-- Modelled from the spec: bitarray.py (class BitArray) is not under
src/. Spec section 4.1: fixed entry bit-width, fixed entry count, backing
sequence of 64-bit words with no cross-word splitting. Words are stored
here as their unsigned 64-bit values. The data field is none when the
source document carried no backing words (Python None). -/
structure BitArray where
  bitsPerEntry : Nat
  size : Nat
  data : Option (List Nat)
deriving DecidableEq

/-- Entries per 64-bit word: floor (64 / w) (spec section 4.1). -/
def BitArray.entriesPerWord (b : BitArray) : Nat := 64 / b.bitsPerEntry

/-- Modelled from the spec, sections 4.1 and 4.2: getAt fails with an
OutOfRange condition unless 0 <= index < size; an absent or empty backing
word sequence makes the array constant-valued, every getAt returning
palette index 0; otherwise the entry is read from word (index / entriesPerWord)
at bit offset (index mod entriesPerWord) * w. The shift-and-mask
extraction (word >> off) AND (2^w - 1) is written arithmetically as
(word / 2^off) mod 2^w, which is the same function. A word index past
the end of the word list is the IndexError of a Python list access. -/
def BitArray.getAt (b : BitArray) (index : Int) : Except PyError Nat :=
  if 0 ≤ index ∧ index < (b.size : Int) then
    match b.data with
    | none => Except.ok 0
    | some [] => Except.ok 0
    | some words =>
      let i := index.toNat
      match words.get? (i / b.entriesPerWord) with
      | none => Except.error PyError.indexError
      | some w => Except.ok ((w / 2 ^ ((i % b.entriesPerWord) * b.bitsPerEntry)) % 2 ^ b.bitsPerEntry)
  else Except.error PyError.outOfRange

/-- A block palette entry. The NBT compound of a block state carries a
Name tag (and optional properties); worldLoader.py only ever reads the
Name (line 164), so the entry is modelled by it. -/
structure BlockState where
  name : String
deriving DecidableEq

/-- Python list subscription with a non-negative index: IndexError past
the end. (The indices reaching palettes here are Nat, produced by
BitArray.getAt, so the negative-index case of Python lists cannot occur.) -/
def pyListGet {α : Type} (l : List α) (i : Nat) : Except PyError α :=
  match l.get? i with
  | none => Except.error PyError.indexError
  | some a => Except.ok a

/-- CachedSection (worldLoader.py lines 22-36). -/
structure CachedSection where
  position : IVec3
  blockPalette : List BlockState
  blockStatesBitArray : BitArray
  biomesPalette : List String
  biomesBitArray : BitArray
deriving DecidableEq

/-- worldLoader.py lines 32-33. -/
def CachedSection.getBlockCompoundAtIndex (cs : CachedSection) (index : Int) : Except PyError BlockState :=
  match cs.blockStatesBitArray.getAt index with
  | Except.error e => Except.error e
  | Except.ok i => pyListGet cs.blockPalette i

/-- worldLoader.py lines 35-36. -/
def CachedSection.getBiomeAtIndex (cs : CachedSection) (index : Int) : Except PyError String :=
  match cs.biomesBitArray.getAt index with
  | Except.error e => Except.error e
  | Except.ok i => pyListGet cs.biomesPalette i

/-- Python dict lookup (dict.get / sections.get at worldLoader.py
line 147): the value stored for the key, or None. -/
def dictGet {κ ν : Type} [DecidableEq κ] : List (κ × ν) → κ → Option ν
  | [], _ => none
  | (a, b) :: t, k => if a = k then some b else dictGet t k

/-- Python dict assignment d[k] = v: replaces the value in place when the
key is present (keeping its position), else appends the new key. -/
def dictSet {κ ν : Type} [DecidableEq κ] (d : List (κ × ν)) (k : κ) (v : ν) : List (κ × ν) :=
  if d.any (fun e => e.1 = k)
  then d.map (fun e => if e.1 = k then (e.1, v) else e)
  else d ++ [(k, v)]

/-- The post-construction state of a WorldSlice that the query API reads:
the requested rect, the derived chunk rect and the section cache
(worldLoader.py lines 54-58 and 104). -/
structure WorldSlice where
  rect : Rect
  chunkRect : Rect
  sections : List (IVec3 × CachedSection)
deriving DecidableEq

/-- worldLoader.py lines 55-58: the chunk-aligned rectangle derived from
the requested rectangle; glm ivec arithmetic, >> 4 is a componentwise
arithmetic shift. -/
def chunkRectOf (rect : Rect) : Rect :=
  Rect.mk
    ⟨sar rect.offset.x 4, sar rect.offset.y 4⟩
    ⟨sar (rect.offset.x + rect.size.x - 1) 4 - sar rect.offset.x 4 + 1,
     sar (rect.offset.y + rect.size.y - 1) 4 - sar rect.offset.y 4 + 1⟩

/-- worldLoader.py lines 47-62, the construction steps before the chunk
fetch: the heightmap-type default, storing the rect, and deriving the
chunk rect. This region of the code contains no validation and no raise;
the value returned is the chunk rectangle handed to di.getChunks. The
Except wrapper records the (absent) possibility of an exception raised
before the fetch. -/
def initFetchRequest (rect : Rect) : Except PyError Rect :=
  Except.ok (chunkRectOf rect)

/-- worldLoader.py lines 141-143. -/
def WorldSlice.getChunkSectionPos (ws : WorldSlice) (position : IVec3) : IVec3 :=
  (position.shr 4) - addY ws.chunkRect.offset

/-- worldLoader.py lines 151-155: the local block index; position.x etc.
are Python ints, so % 16 is the floored remainder, and the shifted sum
(y % 16) * 16 * 16 + (z % 16) * 16 + (x % 16). -/
def blockIndexOf (position : IVec3) : Int :=
  (Int.emod position.y 16) * 16 * 16 + (Int.emod position.z 16) * 16 + Int.emod position.x 16

/-- worldLoader.py lines 145-156. -/
def WorldSlice.getBlockCompoundAt (ws : WorldSlice) (position : IVec3) : Except PyError (Option BlockState) :=
  match dictGet ws.sections (ws.getChunkSectionPos position) with
  | none => Except.ok none
  | some cs =>
    match cs.getBlockCompoundAtIndex (blockIndexOf position) with
    | Except.error e => Except.error e
    | Except.ok b => Except.ok (some b)

/-- worldLoader.py lines 158-164. -/
def WorldSlice.getBlockAt (ws : WorldSlice) (position : IVec3) : Except PyError String :=
  match ws.getBlockCompoundAt position with
  | Except.error e => Except.error e
  | Except.ok none => Except.ok "minecraft:void_air"
  | Except.ok (some b) => Except.ok b.name

/-- worldLoader.py line 174: biomePos = position % 16 >> 2, glm ivec3
operators (truncated remainder, then componentwise arithmetic shift). -/
def biomePosOf (position : IVec3) : IVec3 := (position.tmod 16).shr 2

/-- worldLoader.py line 175: biomeIndex = (biomePos.y << 4) | (biomePos.z << 2) | biomePos.x
on Python ints. -/
def biomeIndexOf (position : IVec3) : Int :=
  pythonOr (pythonOr (pythonShl (biomePosOf position).y 4) (pythonShl (biomePosOf position).z 2))
    (biomePosOf position).x

/-- worldLoader.py lines 166-176. -/
def WorldSlice.getBiomeAt (ws : WorldSlice) (position : IVec3) : Except PyError (Option String) :=
  match dictGet ws.sections (ws.getChunkSectionPos position) with
  | none => Except.ok none
  | some cs =>
    match cs.getBiomeAtIndex (biomeIndexOf position) with
    | Except.error e => Except.error e
    | Except.ok b => Except.ok (some b)

/-- worldLoader.py line 189 for loop-local coordinates in [0, 4): the
fields of (biomeY << 4) | (biomeZ << 2) | biomeX occupy disjoint bits, so
the bitwise or is the sum 16 * biomeY + 4 * biomeZ + biomeX. -/
def biomeCellIndex (bx bY bz : Nat) : Nat := 16 * bY + 4 * bz + bx

/-- The 64 biome cell indices in the iteration order of the loops at
worldLoader.py lines 186-189: biomeX outermost, then biomeY, then biomeZ. -/
def biomeScanIndices : List Nat :=
  (List.range 4).flatMap fun bx =>
    (List.range 4).flatMap fun bY =>
      (List.range 4).map fun bz => biomeCellIndex bx bY bz

/-- worldLoader.py lines 191-194: the dict tally update. A first-seen
biome is appended with count 1; a seen biome has its count incremented in
place (Python dicts preserve insertion order across value updates). -/
def tallyInsert (d : List (String × Nat)) (k : String) : List (String × Nat) :=
  if d.any (fun e => e.1 = k)
  then d.map (fun e => if e.1 = k then (e.1, e.2 + 1) else e)
  else d ++ [(k, 1)]

/-- worldLoader.py lines 178-195. -/
def WorldSlice.getBiomesNear (ws : WorldSlice) (position : IVec3) : Except PyError (Option (List (String × Nat))) :=
  match dictGet ws.sections (ws.getChunkSectionPos position) with
  | none => Except.ok none
  | some cs =>
    match biomeScanIndices.foldlM
        (fun d idx =>
          match cs.getBiomeAtIndex (Int.ofNat idx) with
          | Except.error e => Except.error e
          | Except.ok b => Except.ok (tallyInsert d b)) [] with
    | Except.error e => Except.error e
    | Except.ok d => Except.ok (some d)

/-- Python max(iterable, key=f) over the keys of a dict d with f = d.get:
scans the keys in insertion order keeping the current best, replacing it
only on a strictly greater value, so the first key attaining the maximum
wins. max of an empty iterable raises ValueError. -/
def maxGo (bk : String) (bv : Nat) : List (String × Nat) → String
  | [] => bk
  | (k, v) :: rest => if bv < v then maxGo k v rest else maxGo bk bv rest

/-- max(foundBiomes, key=foundBiomes.get) at worldLoader.py line 201. -/
def pythonMaxByVal : List (String × Nat) → Except PyError String
  | [] => Except.error PyError.valueError
  | (k, v) :: rest => Except.ok (maxGo k v rest)

/-- worldLoader.py lines 197-201. When getBiomesNear returns None
(absent section), max(None, key=...) raises TypeError (None is not
iterable); a raised exception from getBiomesNear propagates. -/
def WorldSlice.getPrimaryBiomeNear (ws : WorldSlice) (position : IVec3) : Except PyError String :=
  match ws.getBiomesNear position with
  | Except.error e => Except.error e
  | Except.ok none => Except.error PyError.typeError
  | Except.ok (some d) => pythonMaxByVal d

/-- ceil(log2 n) for n >= 1 as computed at worldLoader.py lines 122 and
129: the least k with n <= 2^k. The search bound 64 is exact for every
n < 2^64 (palettes are at most 4096 long). Defined by bounded search so
the kernel can evaluate it. -/
def ceilLog2 (n : Nat) : Nat :=
  ((List.range 64).find? (fun k => n ≤ 2 ^ k)).getD 64

/-- A palette-carrying NBT node (block_states or biomes of a section):
an optional palette tag and an optional data tag of 64-bit words. Per the
spec (section 6) these are the only tags such a node carries. -/
structure PaletteNode (α : Type) where
  palette : Option (List α)
  data : Option (List Nat)
deriving DecidableEq

/-- len() of the NBT compound: its number of tags. -/
def PaletteNode.numTags {α : Type} (n : PaletteNode α) : Nat :=
  (if n.palette.isSome then 1 else 0) + (if n.data.isSome then 1 else 0)

/-- A section node of the parsed document: its Y tag and its optional
block_states and biomes nodes. -/
structure SectionNBT where
  y : Int
  block_states : Option (PaletteNode BlockState)
  biomes : Option (PaletteNode String)
deriving DecidableEq

/-- worldLoader.py lines 111-134, the decoding of one section of the
chunk at relative chunk coordinates (x, z). Returns ok none for a section
skipped by the guard at lines 114-116 (block_states missing or empty).
A missing tag accessed with [] raises KeyError; len(palette) = 0 makes
log2 raise ValueError (math domain error). -/
def decodeSection (x z : Int) (s : SectionNBT) : Except PyError (Option CachedSection) :=
  match s.block_states with
  | none => Except.ok none
  | some bs =>
    if bs.numTags = 0 then Except.ok none
    else
      match bs.palette with
      | none => Except.error PyError.keyError
      | some blockPalette =>
        if blockPalette.length = 0 then Except.error PyError.valueError
        else
          let blockBits := max 4 (ceilLog2 blockPalette.length)
          let blockDataBitArray := BitArray.mk blockBits (16 * 16 * 16) bs.data
          match s.biomes with
          | none => Except.error PyError.keyError
          | some bio =>
            match bio.palette with
            | none => Except.error PyError.keyError
            | some biomesPalette =>
              if biomesPalette.length = 0 then Except.error PyError.valueError
              else
                let biomesBits := max 1 (ceilLog2 biomesPalette.length)
                Except.ok (some (CachedSection.mk ⟨x, s.y, z⟩ blockPalette blockDataBitArray
                  biomesPalette (BitArray.mk biomesBits 64 bio.data)))

/-- The section loop of worldLoader.py lines 111-134 for one chunk at
relative coordinates (x, z): each decoded section is stored in the
section dict under ivec3(x, y, z); a skipped section leaves the dict
unchanged; a raised exception aborts the whole construction. -/
def sectionsOfChunk (x z : Int) (sectionList : List SectionNBT) : Except PyError (List (IVec3 × CachedSection)) :=
  sectionList.foldlM
    (fun acc s =>
      match decodeSection x z s with
      | Except.error e => Except.error e
      | Except.ok none => Except.ok acc
      | Except.ok (some cs) => Except.ok (dictSet acc ⟨x, s.y, z⟩ cs))
    []

/-- numpy integer-array assignment heightmap[i, j] = v on a W by H grid
(worldLoader.py lines 96-98): numpy accepts indices in [-W, W-1] (resp.
[-H, H-1]), a negative index wrapping around to index + W (resp. + H),
and raises IndexError otherwise; the IndexError is swallowed by the
try/except at lines 90-100, making the out-of-bounds write a no-op. -/
def hmWrite (W H : Int) (g : Int × Int → Int) (i j v : Int) : Int × Int → Int :=
  if (-W ≤ i ∧ i < W) ∧ (-H ≤ j ∧ j < H) then
    fun c => if c = (if i < 0 then i + W else i, if j < 0 then j + H else j) then v else g c
  else g

/-- One iteration of the innermost heightmap loop (lines 88-100) for one
heightmap kind: decode entry (cz * 16 + cx) of the chunk's 9-bit, 256
entry packed heightmap and store it plus BUILD_Y_MIN at destination
(-rectOffset[0] + x * 16 + cx, -rectOffset[1] + z * 16 + cz), where
rectOffset = trueMod(rect.offset, 16). hmData maps the linear chunk index
chunkID = x + z * chunkRect.size[0] to that chunk's heightmap word list
for the kind; an IndexError from the packed-array read is swallowed by
the same try/except, skipping the write. -/
def hmStep (rect : Rect) (hmData : Nat → List Nat) (sX : Nat) (g : Int × Int → Int) :
    Nat × Nat × Nat × Nat → Int × Int → Int
  | (x, z, cz, cx) =>
    match (BitArray.mk 9 256 (some (hmData (x + z * sX)))).getAt (Int.ofNat (cz * 16 + cx)) with
    | Except.error _ => g
    | Except.ok v =>
      hmWrite rect.size.x rect.size.y g
        (-(trueMod rect.offset.x 16) + (x : Int) * 16 + (cx : Int))
        (-(trueMod rect.offset.y 16) + (z : Int) * 16 + (cz : Int))
        ((v : Int) + BUILD_Y_MIN)

/-- The heightmap grid of one heightmap kind after the loops at
worldLoader.py lines 79-100: starting from the zero grid (np.zeros,
lines 72-74), iterate chunk x (outer), chunk z, local cz, local cx, all
ascending. The heightmap kinds are written to separate arrays, so one
kind's grid is modelled at a time, with hmData giving that kind's packed
words per linear chunk index. -/
def heightmapFor (rect : Rect) (hmData : Nat → List Nat) : Int × Int → Int :=
  (List.range (chunkRectOf rect).size.x.toNat).foldl
    (fun g x =>
      (List.range (chunkRectOf rect).size.y.toNat).foldl
        (fun g z =>
          (List.range 16).foldl
            (fun g cz =>
              (List.range 16).foldl
                (fun g cx => hmStep rect hmData (chunkRectOf rect).size.x.toNat g (x, z, cz, cx))
                g)
            g)
        g)
    (fun _ => 0)

/-! Concrete fixtures used by closed theorems and witnesses. -/

/-- A slice whose section cache is empty: every position's section is absent. -/
def wsEmpty : WorldSlice :=
  WorldSlice.mk (Rect.mk ⟨0, 0⟩ ⟨16, 16⟩) (chunkRectOf (Rect.mk ⟨0, 0⟩ ⟨16, 16⟩)) []

/-- A single-block, single-biome section (palettes of size one, no
backing words: the constant-valued encoding). -/
def csPlains : CachedSection :=
  CachedSection.mk ⟨0, 0, 0⟩ [BlockState.mk "minecraft:stone"] (BitArray.mk 4 4096 none)
    ["minecraft:plains"] (BitArray.mk 1 64 none)

/-- A slice holding csPlains as its only cached section. -/
def wsPlains : WorldSlice :=
  WorldSlice.mk (Rect.mk ⟨0, 0⟩ ⟨16, 16⟩) (chunkRectOf (Rect.mk ⟨0, 0⟩ ⟨16, 16⟩))
    [(⟨0, 0, 0⟩, csPlains)]

/-- A slice over the chunk at chunk coordinates (-1, -1), holding a
single-entry-palette section; world positions with negative coordinates
fall in it. -/
def wsNeg : WorldSlice :=
  WorldSlice.mk (Rect.mk ⟨-16, -16⟩ ⟨16, 16⟩) (chunkRectOf (Rect.mk ⟨-16, -16⟩ ⟨16, 16⟩))
    [(⟨0, 0, 0⟩, csPlains)]

/-- The biome grid (indexed by cell index 0..63) of the tie-break
counterexample: biomes A and B both occupy 31 cells, C occupies cells 0
and 63. A's lowest cell index is 1 and B's is 4, but the scan loops
(biomeX outermost) visit cell 4 (biomeX=0, biomeZ=1) before cell 1
(biomeX=1). -/
def gC2 (i : Nat) : String :=
  if i = 0 ∨ i = 63 then "C" else if i ≤ 3 ∨ (5 ≤ i ∧ i ≤ 32) then "A" else "B"

/-- The gC2 grid packed at 2 bits per entry, 32 entries per 64-bit word,
with palette ["A", "B", "C"]: word 0 holds cells 0..31 (C at bit 0,
B at bits 8-9, A elsewhere), word 1 holds cells 32..63. -/
def csTie : CachedSection :=
  CachedSection.mk ⟨0, 0, 0⟩ [BlockState.mk "minecraft:stone"] (BitArray.mk 4 4096 none)
    ["A", "B", "C"] (BitArray.mk 2 64 (some [258, 10760600709663905108]))

/-- A slice holding csTie as its only cached section. -/
def wsTie : WorldSlice :=
  WorldSlice.mk (Rect.mk ⟨0, 0⟩ ⟨16, 16⟩) (chunkRectOf (Rect.mk ⟨0, 0⟩ ⟨16, 16⟩))
    [(⟨0, 0, 0⟩, csTie)]

/-- The deduplication of a list keeping the first occurrence of each
element, in first-occurrence order: the key order a Python dict acquires
when fed the list left to right. -/
def dedupFO (s : List String) : List String :=
  s.foldl (fun acc a => if a ∈ acc then acc else acc ++ [a]) []

/-- The first index at which k occurs in s (s.length when absent). -/
def firstIdx (s : List String) (k : String) : Nat :=
  match s with
  | [] => 0
  | a :: t => if a = k then 0 else firstIdx t k + 1

/-- Refinement comparison only, following the spec's words (sections 4.3
and 8): the majority biome of a 64-cell grid given as the list of cells
in ascending cell-index order, with ties broken by first-encountered
order in that ascending-index scan. (Tallying a list in order makes the
first key reaching the maximum the first-encountered one.) -/
def specMajorityAscending (cells : List String) : Except PyError String :=
  pythonMaxByVal (cells.foldl tallyInsert [])

/-- A decodable section node: one stone block state, one plains biome,
no backing words. -/
def sGoodA : SectionNBT :=
  SectionNBT.mk 0 (some (PaletteNode.mk (some [BlockState.mk "minecraft:stone"]) none))
    (some (PaletteNode.mk (some ["minecraft:plains"]) none))

/-- A section node with a present, non-empty block_states but no biomes
tag: accessing section['biomes'] raises KeyError. -/
def sBadBiomes : SectionNBT :=
  SectionNBT.mk 1 (some (PaletteNode.mk (some [BlockState.mk "minecraft:stone"]) none)) none

/-- Another decodable section node, at Y = 2. -/
def sGoodB : SectionNBT :=
  SectionNBT.mk 2 (some (PaletteNode.mk (some [BlockState.mk "minecraft:dirt"]) none))
    (some (PaletteNode.mk (some ["minecraft:forest"]) none))

/-- A section node with no block_states tag: skipped by the guard. -/
def sSkip : SectionNBT := SectionNBT.mk 5 none none

/-! Theorems. -/

theorem tallyInsert_mem (d : List (String × Nat)) (k : String) (h : ∃ e ∈ d, e.1 = k) :
    tallyInsert d k = d.map (fun e => if e.1 = k then (e.1, e.2 + 1) else e) := by
  unfold tallyInsert
  rw [if_pos]
  rcases h with ⟨e, he, hek⟩
  exact List.any_eq_true.mpr ⟨e, he, decide_eq_true hek⟩

theorem tallyInsert_notMem (d : List (String × Nat)) (k : String) (h : ∀ e ∈ d, e.1 ≠ k) :
    tallyInsert d k = d ++ [(k, 1)] := by
  unfold tallyInsert
  rw [if_neg]
  intro hany
  rcases List.any_eq_true.mp hany with ⟨e, he, hek⟩
  exact h e he (of_decide_eq_true hek)

theorem bump_map_id (t : List (String × Nat)) (k : String) (h : ∀ e ∈ t, e.1 ≠ k) :
    t.map (fun e => if e.1 = k then (e.1, e.2 + 1) else e) = t := by
  induction t with
  | nil => rfl
  | cons e t ih =>
    simp only [List.map_cons]
    rw [if_neg (h e (List.mem_cons_self e t)), ih (fun x hx => h x (List.mem_cons_of_mem e hx))]

theorem sum_map_bump (d : List (String × Nat)) (k : String)
    (hnd : (d.map (fun e => e.1)).Nodup) (hmem : ∃ e ∈ d, e.1 = k) :
    ((d.map (fun e => if e.1 = k then (e.1, e.2 + 1) else e)).map (fun e => e.2)).sum
      = (d.map (fun e => e.2)).sum + 1 := by
  induction d with
  | nil => simp at hmem
  | cons e t ih =>
    simp only [List.map_cons, List.nodup_cons] at hnd
    by_cases hek : e.1 = k
    · have ht : ∀ x ∈ t, x.1 ≠ k := by
        intro x hx hxk
        exact hnd.1 (by rw [hek, ← hxk]; exact List.mem_map.mpr ⟨x, hx, rfl⟩)
      rw [List.map_cons, if_pos hek, bump_map_id t k ht]
      simp only [List.map_cons, List.sum_cons]
      omega
    · rcases hmem with ⟨x, hx, hxk⟩
      have hxt : x ∈ t := by
        rcases List.mem_cons.mp hx with rfl | hxt
        · exact absurd hxk hek
        · exact hxt
      rw [List.map_cons, if_neg hek]
      simp only [List.map_cons, List.sum_cons]
      rw [ih hnd.2 ⟨x, hxt, hxk⟩]
      omega

theorem tallyInsert_invariant (d : List (String × Nat)) (k : String)
    (hnd : (d.map (fun e => e.1)).Nodup) (hpos : ∀ e ∈ d, 0 < e.2) :
    ((tallyInsert d k).map (fun e => e.1)).Nodup ∧ (∀ e ∈ tallyInsert d k, 0 < e.2) ∧
      ((tallyInsert d k).map (fun e => e.2)).sum = (d.map (fun e => e.2)).sum + 1 := by
  by_cases hc : ∃ e ∈ d, e.1 = k
  · rw [tallyInsert_mem d k hc]
    refine ⟨?_, ?_, sum_map_bump d k hnd hc⟩
    · rw [List.map_map]
      have : ((fun e : String × Nat => e.1) ∘ fun e => if e.1 = k then (e.1, e.2 + 1) else e)
          = fun e : String × Nat => e.1 := by
        funext e
        by_cases h : e.1 = k <;> simp [h]
      rw [this]
      exact hnd
    · intro x hx
      rcases List.mem_map.mp hx with ⟨e, he, rfl⟩
      by_cases h : e.1 = k
      · simp [h]
      · simp only [if_neg h]
        exact hpos e he
  · push_neg at hc
    rw [tallyInsert_notMem d k hc]
    have hknotin : k ∉ d.map (fun e => e.1) := by
      intro hk
      rcases List.mem_map.mp hk with ⟨e, he, hefst⟩
      exact hc e he hefst
    refine ⟨?_, ?_, by simp⟩
    · rw [List.map_append]
      simp only [List.map_cons, List.map_nil]
      rw [List.nodup_append]
      refine ⟨hnd, List.nodup_singleton k, ?_⟩
      intro a ha hk1
      simp only [List.mem_singleton] at hk1
      subst hk1
      exact hknotin ha
    · intro x hx
      rcases List.mem_append.mp hx with hx | hx
      · exact hpos x hx
      · simp only [List.mem_singleton] at hx
        simp [hx]

theorem biome_fold_invariant (f : Nat → Except PyError String) :
    ∀ (L : List Nat) (d0 d : List (String × Nat)),
      List.foldlM (fun d idx =>
        match f idx with
        | Except.error e => Except.error e
        | Except.ok b => Except.ok (tallyInsert d b)) d0 L = Except.ok d →
      (d0.map (fun e => e.1)).Nodup → (∀ e ∈ d0, 0 < e.2) →
      (d.map (fun e => e.1)).Nodup ∧ (∀ e ∈ d, 0 < e.2) ∧
        (d.map (fun e => e.2)).sum = (d0.map (fun e => e.2)).sum + L.length := by
  intro L
  induction L with
  | nil =>
    intro d0 d h hnd hpos
    simp only [List.foldlM_nil] at h
    cases h
    exact ⟨hnd, hpos, by simp⟩
  | cons a L ih =>
    intro d0 d h hnd hpos
    rw [List.foldlM_cons] at h
    cases hfa : f a with
    | error e =>
      rw [hfa] at h
      have h2 : (Except.error e : Except PyError (List (String × Nat))) = Except.ok d := h
      exact Except.noConfusion h2
    | ok b =>
      rw [hfa] at h
      have hrest : List.foldlM (fun d idx =>
          match f idx with
          | Except.error e => Except.error e
          | Except.ok b => Except.ok (tallyInsert d b)) (tallyInsert d0 b) L = Except.ok d := h
      obtain ⟨hi1, hi2, hi3⟩ := tallyInsert_invariant d0 b hnd hpos
      obtain ⟨h1, h2, h3⟩ := ih (tallyInsert d0 b) d hrest hi1 hi2
      refine ⟨h1, h2, ?_⟩
      rw [h3, hi3]
      simp only [List.length_cons]
      omega

/-- C10: whenever getBiomesNear returns a mapping (present section, no
decode failure), every count in it is positive and the counts sum to 64,
one tally per cell of the 4 by 4 by 4 biome grid. -/
theorem biome_histogram_sum (ws : WorldSlice) (p : IVec3) (d : List (String × Nat))
    (h : ws.getBiomesNear p = Except.ok (some d)) :
    (∀ e ∈ d, 0 < e.2) ∧ (d.map (fun e => e.2)).sum = 64 := by
  unfold WorldSlice.getBiomesNear at h
  cases hs : dictGet ws.sections (ws.getChunkSectionPos p) with
  | none =>
    simp only [hs] at h
    simp at h
  | some cs =>
    simp only [hs] at h
    cases hf : List.foldlM (fun d idx =>
        match cs.getBiomeAtIndex (Int.ofNat idx) with
        | Except.error e => Except.error e
        | Except.ok b => Except.ok (tallyInsert d b)) [] biomeScanIndices with
    | error e =>
      simp only [hf] at h
      cases h
    | ok dd =>
      simp only [hf] at h
      cases h
      obtain ⟨_, hpos, hsum⟩ :=
        biome_fold_invariant (fun i => cs.getBiomeAtIndex (Int.ofNat i)) biomeScanIndices [] d hf
          (by simp) (by simp)
      refine ⟨hpos, ?_⟩
      rw [hsum]
      rfl

set_option maxRecDepth 40000 in
/-- C10 witness: biome_histogram_sum applied to a concrete slice whose
histogram is one biome with count 64. -/
theorem biome_histogram_sum_witness :
    wsPlains.getBiomesNear ⟨0, 0, 0⟩ = Except.ok (some [("minecraft:plains", 64)]) ∧
    ((∀ e ∈ [(("minecraft:plains" : String), (64 : Nat))], 0 < e.2) ∧
      (([(("minecraft:plains" : String), (64 : Nat))]).map (fun e => e.2)).sum = 64) := by
  have h : wsPlains.getBiomesNear ⟨0, 0, 0⟩ = Except.ok (some [("minecraft:plains", 64)]) := by
    decide
  exact ⟨h, biome_histogram_sum wsPlains ⟨0, 0, 0⟩ [("minecraft:plains", 64)] h⟩

theorem mapM_ok_length (f : Nat → Except PyError String) :
    ∀ (L : List Nat) (seq : List String),
      List.mapM f L = Except.ok seq → seq.length = L.length := by
  intro L
  induction L with
  | nil =>
    intro seq h
    rw [List.mapM_nil] at h
    cases h
    rfl
  | cons a L ih =>
    intro seq h
    rw [List.mapM_cons] at h
    cases hfa : f a with
    | error e =>
      rw [hfa] at h
      have h2 : (Except.error e : Except PyError (List String)) = Except.ok seq := h
      exact Except.noConfusion h2
    | ok b =>
      rw [hfa] at h
      cases hml : List.mapM f L with
      | error e =>
        rw [hml] at h
        have h2 : (Except.error e : Except PyError (List String)) = Except.ok seq := h
        exact Except.noConfusion h2
      | ok bs =>
        rw [hml] at h
        have h2 : Except.ok (b :: bs) = Except.ok seq := h
        cases h2
        simp [ih bs hml]

theorem foldlM_tally_of_mapM (f : Nat → Except PyError String) :
    ∀ (L : List Nat) (seq : List String) (d0 : List (String × Nat)),
      List.mapM f L = Except.ok seq →
      List.foldlM (fun d idx =>
        match f idx with
        | Except.error e => Except.error e
        | Except.ok b => Except.ok (tallyInsert d b)) d0 L
        = Except.ok (seq.foldl tallyInsert d0) := by
  intro L
  induction L with
  | nil =>
    intro seq d0 h
    rw [List.mapM_nil] at h
    cases h
    rfl
  | cons a L ih =>
    intro seq d0 h
    rw [List.mapM_cons] at h
    cases hfa : f a with
    | error e =>
      rw [hfa] at h
      have h2 : (Except.error e : Except PyError (List String)) = Except.ok seq := h
      exact Except.noConfusion h2
    | ok b =>
      rw [hfa] at h
      cases hml : List.mapM f L with
      | error e =>
        rw [hml] at h
        have h2 : (Except.error e : Except PyError (List String)) = Except.ok seq := h
        exact Except.noConfusion h2
      | ok bs =>
        rw [hml] at h
        have h2 : Except.ok (b :: bs) = Except.ok seq := h
        cases h2
        rw [List.foldlM_cons, hfa]
        have h3 : List.foldlM (fun d idx =>
            match f idx with
            | Except.error e => Except.error e
            | Except.ok b => Except.ok (tallyInsert d b)) (tallyInsert d0 b) L
            = Except.ok (bs.foldl tallyInsert (tallyInsert d0 b)) := ih bs (tallyInsert d0 b) hml
        exact h3

theorem dedupFO_append_singleton (s : List String) (a : String) :
    dedupFO (s ++ [a]) = if a ∈ dedupFO s then dedupFO s else dedupFO s ++ [a] := by
  unfold dedupFO
  rw [List.foldl_append]
  rfl

theorem dedupFO_mem (s : List String) : ∀ a, a ∈ dedupFO s ↔ a ∈ s := by
  induction s using List.reverseRecOn with
  | nil => intro a; simp [dedupFO]
  | append_singleton t b ih =>
    intro a
    rw [dedupFO_append_singleton]
    by_cases hb : b ∈ dedupFO t
    · rw [if_pos hb]
      rw [ih a]
      constructor
      · intro h
        exact List.mem_append_left [b] h
      · intro h
        rcases List.mem_append.mp h with h | h
        · exact h
        · simp only [List.mem_singleton] at h
          subst h
          exact (ih a).mp hb
    · rw [if_neg hb]
      simp [List.mem_append, ih a]

theorem firstIdx_append_left (s t : List String) (a : String) (h : a ∈ s) :
    firstIdx (s ++ t) a = firstIdx s a := by
  induction s with
  | nil => cases h
  | cons c s ih =>
    by_cases hc : c = a
    · simp [firstIdx, hc]
    · have has : a ∈ s := by
        rcases List.mem_cons.mp h with h1 | h1
        · exact absurd h1.symm hc
        · exact h1
      simp [firstIdx, hc, ih has]

theorem firstIdx_append_right (s : List String) (a : String) (h : a ∉ s) :
    firstIdx (s ++ [a]) a = s.length := by
  induction s with
  | nil => simp [firstIdx]
  | cons c s ih =>
    have hc : ¬ c = a := fun hh => h (hh ▸ List.mem_cons_self c s)
    have has : a ∉ s := fun hh => h (List.mem_cons_of_mem c hh)
    simp [firstIdx, hc, ih has]

theorem firstIdx_lt_length (s : List String) (a : String) (h : a ∈ s) :
    firstIdx s a < s.length := by
  induction s with
  | nil => cases h
  | cons c s ih =>
    by_cases hc : c = a
    · simp [firstIdx, hc]
    · have has : a ∈ s := by
        rcases List.mem_cons.mp h with h1 | h1
        · exact absurd h1.symm hc
        · exact h1
      simp [firstIdx, hc, Nat.succ_lt_succ (ih has)]

theorem dedupFO_pairwise (s : List String) :
    (dedupFO s).Pairwise (fun k1 k2 => firstIdx s k1 < firstIdx s k2) := by
  induction s using List.reverseRecOn with
  | nil => simp [dedupFO]
  | append_singleton t b ih =>
    rw [dedupFO_append_singleton]
    by_cases hb : b ∈ dedupFO t
    · rw [if_pos hb]
      refine List.Pairwise.imp_of_mem ?_ ih
      intro x y hx hy hr
      rw [firstIdx_append_left t [b] x ((dedupFO_mem t x).mp hx),
        firstIdx_append_left t [b] y ((dedupFO_mem t y).mp hy)]
      exact hr
    · rw [if_neg hb]
      rw [List.pairwise_append]
      refine ⟨List.Pairwise.imp_of_mem ?_ ih, List.pairwise_singleton _ _, ?_⟩
      · intro x y hx hy hr
        rw [firstIdx_append_left t [b] x ((dedupFO_mem t x).mp hx),
          firstIdx_append_left t [b] y ((dedupFO_mem t y).mp hy)]
        exact hr
      · intro x hx y hy
        simp only [List.mem_singleton] at hy
        rw [hy]
        have hxt : x ∈ t := (dedupFO_mem t x).mp hx
        have hbt : b ∉ t := fun hbt => hb ((dedupFO_mem t b).mpr hbt)
        rw [firstIdx_append_left t [b] x hxt, firstIdx_append_right t b hbt]
        exact firstIdx_lt_length t x hxt

theorem tally_eq (s : List String) :
    s.foldl tallyInsert [] = (dedupFO s).map (fun k => (k, s.count k)) := by
  induction s using List.reverseRecOn with
  | nil => rfl
  | append_singleton t a ih =>
    rw [List.foldl_append, List.foldl_cons, List.foldl_nil, ih, dedupFO_append_singleton]
    by_cases ha : a ∈ dedupFO t
    · have hat : a ∈ t := (dedupFO_mem t a).mp ha
      rw [if_pos ha]
      rw [tallyInsert_mem _ a ⟨(a, t.count a), List.mem_map.mpr ⟨a, ha, rfl⟩, rfl⟩]
      rw [List.map_map]
      apply List.map_congr_left
      intro k hk
      by_cases hka : k = a
      · subst hka
        simp [List.count_append, List.count_cons]
      · have hak : ¬ (a == k) = true := by simpa using fun hh => hka hh.symm
        simp [List.count_append, List.count_cons, hka, hak]
    · rw [if_neg ha]
      have hat : a ∉ t := fun h => ha ((dedupFO_mem t a).mpr h)
      rw [tallyInsert_notMem]
      · rw [List.map_append]
        congr 1
        · apply List.map_congr_left
          intro k hk
          have hkt : k ∈ t := (dedupFO_mem t k).mp hk
          have hka : ¬ (a == k) = true := by
            simp only [beq_iff_eq]
            intro hh
            exact hat (hh ▸ hkt)
          simp [List.count_append, List.count_cons, hka]
        · have hcz : t.count a = 0 := List.count_eq_zero.mpr hat
          simp [List.count_append, List.count_cons, hcz]
      · intro e he hek
        rcases List.mem_map.mp he with ⟨k, hk, rfl⟩
        simp only at hek
        exact ha (hek ▸ hk)

theorem maxGo_spec (rest : List (String × Nat)) :
    ∀ (bk : String) (bv : Nat),
    ∃ j, ∃ hj : j < ((bk, bv) :: rest).length,
      maxGo bk bv rest = (((bk, bv) :: rest).get ⟨j, hj⟩).1 ∧
      (∀ i, ∀ hi : i < ((bk, bv) :: rest).length,
        (((bk, bv) :: rest).get ⟨i, hi⟩).2 ≤ (((bk, bv) :: rest).get ⟨j, hj⟩).2) ∧
      (∀ i, ∀ hi : i < ((bk, bv) :: rest).length, i < j →
        (((bk, bv) :: rest).get ⟨i, hi⟩).2 < (((bk, bv) :: rest).get ⟨j, hj⟩).2) := by
  induction rest with
  | nil =>
    intro bk bv
    refine ⟨0, by simp, rfl, ?_, ?_⟩
    · intro i hi
      have hi0 : i = 0 := by
        simp only [List.length_cons, List.length_nil] at hi
        omega
      subst hi0
      exact Nat.le_refl _
    · intro i hi hij
      exact absurd hij (Nat.not_lt_zero i)
  | cons p rest ih =>
    obtain ⟨k, v⟩ := p
    intro bk bv
    by_cases hbv : bv < v
    · obtain ⟨j, hj, hkey, hmax, hstrict⟩ := ih k v
      have hj2 : j + 1 < ((bk, bv) :: (k, v) :: rest).length := by
        simp only [List.length_cons] at hj ⊢
        omega
      refine ⟨j + 1, hj2, ?_, ?_, ?_⟩
      · show maxGo bk bv ((k, v) :: rest) = _
        rw [show maxGo bk bv ((k, v) :: rest) = maxGo k v rest from by simp [maxGo, hbv]]
        exact hkey
      · intro i hi
        match i, hi with
        | 0, hi =>
          calc (((bk, bv) :: (k, v) :: rest).get ⟨0, hi⟩).2 = bv := rfl
            _ ≤ v := Nat.le_of_lt hbv
            _ = (((k, v) :: rest).get ⟨0, by simp⟩).2 := rfl
            _ ≤ (((k, v) :: rest).get ⟨j, hj⟩).2 := hmax 0 (by simp)
        | i + 1, hi =>
          exact hmax i (by simp only [List.length_cons] at hi ⊢; omega)
      · intro i hi hij
        match i, hi with
        | 0, hi =>
          calc (((bk, bv) :: (k, v) :: rest).get ⟨0, hi⟩).2 = bv := rfl
            _ < v := hbv
            _ = (((k, v) :: rest).get ⟨0, by simp⟩).2 := rfl
            _ ≤ (((k, v) :: rest).get ⟨j, hj⟩).2 := hmax 0 (by simp)
        | i + 1, hi =>
          exact hstrict i (by simp only [List.length_cons] at hi ⊢; omega) (by omega)
    · obtain ⟨j, hj, hkey, hmax, hstrict⟩ := ih bk bv
      have hred : maxGo bk bv ((k, v) :: rest) = maxGo bk bv rest := by simp [maxGo, hbv]
      match j, hj with
      | 0, hj =>
        refine ⟨0, by simp, ?_, ?_, ?_⟩
        · rw [hred, hkey]
          rfl
        · intro i hi
          match i, hi with
          | 0, hi => exact Nat.le_refl _
          | 1, hi => exact Nat.le_of_not_lt hbv
          | i + 2, hi =>
            calc (((bk, bv) :: (k, v) :: rest).get ⟨i + 2, hi⟩).2
                = (((bk, bv) :: rest).get ⟨i + 1, by simp only [List.length_cons] at hi ⊢; omega⟩).2 := rfl
              _ ≤ (((bk, bv) :: rest).get ⟨0, hj⟩).2 :=
                  hmax (i + 1) (by simp only [List.length_cons] at hi ⊢; omega)
              _ = bv := rfl
        · intro i hi hij
          exact absurd hij (Nat.not_lt_zero i)
      | j + 1, hj =>
        have hj2 : j + 2 < ((bk, bv) :: (k, v) :: rest).length := by
          simp only [List.length_cons] at hj ⊢
          omega
        have hjq : j + 1 < ((bk, bv) :: rest).length := hj
        refine ⟨j + 2, hj2, ?_, ?_, ?_⟩
        · rw [hred, hkey]
          rfl
        · intro i hi
          match i, hi with
          | 0, hi => exact hmax 0 (by simp)
          | 1, hi =>
            calc (((bk, bv) :: (k, v) :: rest).get ⟨1, hi⟩).2 = v := rfl
              _ ≤ bv := Nat.le_of_not_lt hbv
              _ = (((bk, bv) :: rest).get ⟨0, by simp⟩).2 := rfl
              _ ≤ (((bk, bv) :: rest).get ⟨j + 1, hjq⟩).2 := hmax 0 (by simp)
          | i + 2, hi =>
            exact hmax (i + 1) (by simp only [List.length_cons] at hi ⊢; omega)
        · intro i hi hij
          match i, hi with
          | 0, hi => exact hstrict 0 (by simp) (by omega)
          | 1, hi =>
            calc (((bk, bv) :: (k, v) :: rest).get ⟨1, hi⟩).2 = v := rfl
              _ ≤ bv := Nat.le_of_not_lt hbv
              _ = (((bk, bv) :: rest).get ⟨0, by simp⟩).2 := rfl
              _ < (((bk, bv) :: rest).get ⟨j + 1, hjq⟩).2 := hstrict 0 (by simp) (by omega)
          | i + 2, hi =>
            exact hstrict (i + 1) (by simp only [List.length_cons] at hi ⊢; omega) (by omega)

theorem pythonMax_spec (d : List (String × Nat)) (hne : d ≠ []) :
    ∃ j, ∃ hj : j < d.length, pythonMaxByVal d = Except.ok ((d.get ⟨j, hj⟩).1) ∧
      (∀ i, ∀ hi : i < d.length, (d.get ⟨i, hi⟩).2 ≤ (d.get ⟨j, hj⟩).2) ∧
      (∀ i, ∀ hi : i < d.length, i < j → (d.get ⟨i, hi⟩).2 < (d.get ⟨j, hj⟩).2) := by
  match d with
  | [] => exact absurd rfl hne
  | (k, v) :: rest =>
    obtain ⟨j, hj, hkey, hmax, hstrict⟩ := maxGo_spec rest k v
    exact ⟨j, hj, congrArg Except.ok hkey, hmax, hstrict⟩

set_option maxRecDepth 100000 in
/-- C2 (counterexample): a concrete 64-cell biome grid on which biomes A
and B tie at the maximal count 31 (C has 2), A occupies a strictly lower
cell index (cell 1; B first appears at cell 4, and no cell below 4 holds
B), yet getPrimaryBiomeNear returns B, because the scan runs biomeX
outermost and meets cell 4 (biomeX = 0, biomeZ = 1) before cell 1
(biomeX = 1); the ascending-cell-index tie-break stated by the claim
(formalized by specMajorityAscending over the cells in index order)
would return A. -/
theorem majority_tiebreak_not_cell_index_order :
    wsTie.getPrimaryBiomeNear ⟨0, 0, 0⟩ = Except.ok "B" ∧
    specMajorityAscending ((List.range 64).map gC2) = Except.ok "A" ∧
    (∀ i, i < 64 → csTie.getBiomeAtIndex (Int.ofNat i) = Except.ok (gC2 i)) ∧
    ((List.range 64).map gC2).count "A" = 31 ∧
    ((List.range 64).map gC2).count "B" = 31 ∧
    ((List.range 64).map gC2).count "C" = 2 ∧
    (∀ i, i < 64 → gC2 i = "A" ∨ gC2 i = "B" ∨ gC2 i = "C") ∧
    gC2 1 = "A" ∧ (∀ i, i < 4 → gC2 i ≠ "B") ∧
    ("B" : String) ≠ "A" := by
  refine ⟨by decide, by decide, by decide, by decide, by decide, by decide, by decide,
    by decide, by decide, by decide⟩

/-- C2 (amended): for a present section whose 64 biome cells decode to
the sequence seq (listed in the order the code scans them: biomeX
outermost, then biomeY, then biomeZ), getPrimaryBiomeNear returns a biome
of seq with maximal occurrence count, and on ties it returns the biome
first encountered in that scan order (not in ascending cell-index
order). -/
theorem majority_biome_scan_order (ws : WorldSlice) (p : IVec3) (cs : CachedSection)
    (hsec : dictGet ws.sections (ws.getChunkSectionPos p) = some cs)
    (seq : List String)
    (hseq : List.mapM (fun i => cs.getBiomeAtIndex (Int.ofNat i)) biomeScanIndices
      = Except.ok seq) :
    ∃ bstar, ws.getPrimaryBiomeNear p = Except.ok bstar ∧ bstar ∈ seq ∧
      (∀ a ∈ seq, seq.count a ≤ seq.count bstar) ∧
      (∀ a ∈ seq, seq.count a = seq.count bstar → firstIdx seq bstar ≤ firstIdx seq a) := by
  have hfold := foldlM_tally_of_mapM (fun i => cs.getBiomeAtIndex (Int.ofNat i))
    biomeScanIndices seq [] hseq
  have hprim : ws.getPrimaryBiomeNear p
      = pythonMaxByVal ((dedupFO seq).map (fun k => (k, seq.count k))) := by
    unfold WorldSlice.getPrimaryBiomeNear WorldSlice.getBiomesNear
    simp only [hsec, hfold, tally_eq]
  have hlen : seq.length = 64 := by
    have h := mapM_ok_length (fun i => cs.getBiomeAtIndex (Int.ofNat i)) biomeScanIndices seq hseq
    rw [h]
    rfl
  have hne : seq ≠ [] := by
    intro h
    rw [h] at hlen
    simp at hlen
  have hdne : (dedupFO seq).map (fun k => (k, seq.count k)) ≠ [] := by
    intro h
    rw [List.map_eq_nil] at h
    cases hseqq : seq with
    | nil => exact hne hseqq
    | cons c t =>
      have hc : c ∈ dedupFO seq := (dedupFO_mem seq c).mpr (by
        rw [hseqq]
        exact List.mem_cons_self c t)
      rw [h] at hc
      cases hc
  have hlm : ((dedupFO seq).map (fun k => (k, seq.count k))).length = (dedupFO seq).length :=
    List.length_map _ _
  obtain ⟨j, hj, hkey, hmax, hstrict⟩ :=
    pythonMax_spec ((dedupFO seq).map (fun k => (k, seq.count k))) hdne
  have hjd : j < (dedupFO seq).length := hlm ▸ hj
  have hsnd : ∀ (i : Nat) (hi : i < ((dedupFO seq).map (fun k => (k, seq.count k))).length),
      (((dedupFO seq).map (fun k => (k, seq.count k))).get ⟨i, hi⟩).2
        = seq.count ((((dedupFO seq).map (fun k => (k, seq.count k))).get ⟨i, hi⟩).1) := by
    intro i hi
    rw [List.get_map]
  have hfst : ∀ (i : Nat) (hi : i < ((dedupFO seq).map (fun k => (k, seq.count k))).length)
      (hid : i < (dedupFO seq).length),
      (((dedupFO seq).map (fun k => (k, seq.count k))).get ⟨i, hi⟩).1
        = (dedupFO seq).get ⟨i, hid⟩ := by
    intro i hi hid
    rw [List.get_map]
  have hkey2 : ws.getPrimaryBiomeNear p
      = Except.ok ((((dedupFO seq).map (fun k => (k, seq.count k))).get ⟨j, hj⟩).1) := by
    rw [hprim, hkey]
  have hbmem : (((dedupFO seq).map (fun k => (k, seq.count k))).get ⟨j, hj⟩).1 ∈ seq := by
    rw [hfst j hj hjd]
    exact (dedupFO_mem seq _).mp (List.get_mem _ j hjd)
  refine ⟨(((dedupFO seq).map (fun k => (k, seq.count k))).get ⟨j, hj⟩).1, hkey2, hbmem, ?_, ?_⟩
  · intro a ha
    have had : (a, seq.count a) ∈ (dedupFO seq).map (fun k => (k, seq.count k)) :=
      List.mem_map.mpr ⟨a, (dedupFO_mem seq a).mpr ha, rfl⟩
    rcases List.mem_iff_get.mp had with ⟨⟨i, hi⟩, hgeta⟩
    have h1 := hmax i hi
    rw [hgeta, hsnd j hj] at h1
    exact h1
  · intro a ha hcnt
    have had : (a, seq.count a) ∈ (dedupFO seq).map (fun k => (k, seq.count k)) :=
      List.mem_map.mpr ⟨a, (dedupFO_mem seq a).mpr ha, rfl⟩
    rcases List.mem_iff_get.mp had with ⟨⟨i, hi⟩, hgeta⟩
    have hid : i < (dedupFO seq).length := hlm ▸ hi
    rcases Nat.lt_trichotomy i j with hij | hij | hij
    · exfalso
      have h1 := hstrict i hi hij
      rw [hgeta, hsnd j hj] at h1
      omega
    · have heq : (((dedupFO seq).map (fun k => (k, seq.count k))).get ⟨i, hi⟩)
          = (((dedupFO seq).map (fun k => (k, seq.count k))).get ⟨j, hj⟩) := by
        congr 1
        exact Fin.ext hij
      have ha2 : a = (((dedupFO seq).map (fun k => (k, seq.count k))).get ⟨j, hj⟩).1 := by
        rw [← heq, hgeta]
      rw [← ha2]
    · have hpw := List.pairwise_iff_get.mp (dedupFO_pairwise seq) ⟨j, hjd⟩ ⟨i, hid⟩ hij
      have hga : (dedupFO seq).get ⟨i, hid⟩ = a := by
        rw [← hfst i hi hid, hgeta]
      rw [hga, ← hfst j hj hjd] at hpw
      exact Nat.le_of_lt hpw

set_option maxRecDepth 40000 in
/-- C2 witness: majority_biome_scan_order applied to a concrete slice
whose 64 cells all decode to one biome. -/
theorem majority_biome_scan_order_witness :
    dictGet wsPlains.sections (wsPlains.getChunkSectionPos ⟨0, 0, 0⟩) = some csPlains ∧
    List.mapM (fun i => csPlains.getBiomeAtIndex (Int.ofNat i)) biomeScanIndices
      = Except.ok (List.replicate 64 "minecraft:plains") ∧
    (∃ bstar, wsPlains.getPrimaryBiomeNear ⟨0, 0, 0⟩ = Except.ok bstar ∧
      bstar ∈ List.replicate 64 "minecraft:plains" ∧
      (∀ a ∈ List.replicate 64 "minecraft:plains",
        (List.replicate 64 "minecraft:plains").count a
          ≤ (List.replicate 64 "minecraft:plains").count bstar) ∧
      (∀ a ∈ List.replicate 64 "minecraft:plains",
        (List.replicate 64 "minecraft:plains").count a
            = (List.replicate 64 "minecraft:plains").count bstar →
          firstIdx (List.replicate 64 "minecraft:plains") bstar
            ≤ firstIdx (List.replicate 64 "minecraft:plains") a)) := by
  have h1 : dictGet wsPlains.sections (wsPlains.getChunkSectionPos ⟨0, 0, 0⟩) = some csPlains := by
    decide
  have h2 : List.mapM (fun i => csPlains.getBiomeAtIndex (Int.ofNat i)) biomeScanIndices
      = Except.ok (List.replicate 64 "minecraft:plains") := by
    decide
  exact ⟨h1, h2, majority_biome_scan_order wsPlains ⟨0, 0, 0⟩ csPlains h1 _ h2⟩

/-- C1 (code_bug evaluation): at a position whose section is absent from
the cache, getBlockAt, getBiomeAt and getBiomesNear return their
absent/sentinel results, but getPrimaryBiomeNear passes the None returned
by getBiomesNear straight into max(), which raises TypeError instead of
yielding an absent result. -/
theorem absent_section_primary_biome_raises :
    wsEmpty.getPrimaryBiomeNear ⟨0, 0, 0⟩ = Except.error PyError.typeError ∧
    wsEmpty.getBlockAt ⟨0, 0, 0⟩ = Except.ok "minecraft:void_air" ∧
    wsEmpty.getBiomeAt ⟨0, 0, 0⟩ = Except.ok none ∧
    wsEmpty.getBiomesNear ⟨0, 0, 0⟩ = Except.ok none := by
  refine ⟨rfl, rfl, rfl, rfl⟩

/-- C3 (counterexample): for the degenerate rectangle of size (0, 0), the
pre-fetch part of construction does not raise InvalidArgument (or
anything else); it proceeds to request the (empty) chunk rectangle from
the fetch collaborator. -/
theorem no_rect_validation_at_zero_size :
    initFetchRequest (Rect.mk ⟨0, 0⟩ ⟨0, 0⟩) = Except.ok (Rect.mk ⟨0, 0⟩ ⟨0, 0⟩) ∧
    ∀ e : PyError, initFetchRequest (Rect.mk ⟨0, 0⟩ ⟨0, 0⟩) ≠ Except.error e := by
  exact ⟨rfl, fun e h => Except.noConfusion h⟩

/-- C3 (amended): construction performs no rectangle validation at all;
for every requested rectangle, including ones with non-positive size
components, the code before the fetch raises nothing and hands the
derived chunk rectangle to the fetch. -/
theorem construction_reaches_fetch_unvalidated (rect : Rect) :
    initFetchRequest rect = Except.ok (chunkRectOf rect) := rfl

/-- C6 (code_bug evaluation): at the world position (-1, 8, -1), whose
section is present, the biome cell index computed by getBiomeAt from the
glm truncated remainder is -1, outside [0, 63], and the biome lookup
fails, while the block index (computed with Python's floored scalar
remainder) is 2303, inside [0, 4095], and the block lookup succeeds. -/
theorem negative_position_biome_index_value :
    biomeIndexOf ⟨-1, 8, -1⟩ = -1 ∧
    wsNeg.getBiomeAt ⟨-1, 8, -1⟩ = Except.error PyError.outOfRange ∧
    blockIndexOf ⟨-1, 8, -1⟩ = 2303 ∧
    wsNeg.getBlockAt ⟨-1, 8, -1⟩ = Except.ok "minecraft:stone" := by
  refine ⟨rfl, rfl, rfl, rfl⟩

/-- C7: at a position whose section is absent, getBlockAt returns the
sentinel void block id (a present string, never a failure and never a
None), getBiomeAt returns Python None (an absent value), and the two
absence results are distinguishable. -/
theorem absent_section_block_biome_sentinels (ws : WorldSlice) (p : IVec3)
    (h : dictGet ws.sections (ws.getChunkSectionPos p) = none) :
    ws.getBlockAt p = Except.ok "minecraft:void_air" ∧
    ws.getBiomeAt p = Except.ok none ∧
    (Except.ok none : Except PyError (Option String)) ≠
      Except.ok (some "minecraft:void_air") := by
  refine ⟨?_, ?_, by intro hc; cases hc⟩
  · unfold WorldSlice.getBlockAt WorldSlice.getBlockCompoundAt
    rw [h]
  · unfold WorldSlice.getBiomeAt
    rw [h]

/-- C7 witness: the hypotheses and conclusion of
absent_section_block_biome_sentinels hold at a concrete slice and position. -/
theorem absent_section_block_biome_sentinels_witness :
    dictGet wsEmpty.sections (wsEmpty.getChunkSectionPos ⟨3, 70, 5⟩) = none ∧
    (wsEmpty.getBlockAt ⟨3, 70, 5⟩ = Except.ok "minecraft:void_air" ∧
     wsEmpty.getBiomeAt ⟨3, 70, 5⟩ = Except.ok none ∧
     (Except.ok none : Except PyError (Option String)) ≠
       Except.ok (some "minecraft:void_air")) :=
  ⟨rfl, absent_section_block_biome_sentinels wsEmpty ⟨3, 70, 5⟩ rfl⟩

/-- C5 (counterexample): a section whose block_states is present and
non-empty but whose biomes tag is missing raises KeyError, aborting the
whole section pass: the sections after it are not decoded and the
construction fails rather than leaving the malformed section absent. -/
theorem missing_biomes_fails_construction :
    sectionsOfChunk 0 0 [sGoodA, sBadBiomes, sGoodB] = Except.error PyError.keyError := by
  rfl

/-- C5 (amended): a section whose block_states tag is missing or empty is
skipped without error: removing it from the section list leaves the
decoded cache of the chunk unchanged, and the remaining sections are
decoded normally. (A present non-empty block_states with a missing biomes
tag, by contrast, fails construction; see the counterexample.) -/
theorem empty_block_states_skipped (x z : Int) (pre post : List SectionNBT) (s : SectionNBT)
    (h : s.block_states = none ∨ ∃ bs, s.block_states = some bs ∧ bs.numTags = 0) :
    sectionsOfChunk x z (pre ++ s :: post) = sectionsOfChunk x z (pre ++ post) := by
  have hskip : decodeSection x z s = Except.ok none := by
    rcases h with h | ⟨bs, h1, h2⟩
    · unfold decodeSection
      rw [h]
    · unfold decodeSection
      rw [h1]
      simp [h2]
  unfold sectionsOfChunk
  rw [List.foldlM_append, List.foldlM_append]
  cases hpre : List.foldlM
      (fun acc s =>
        match decodeSection x z s with
        | Except.error e => Except.error e
        | Except.ok none => Except.ok acc
        | Except.ok (some cs) => Except.ok (dictSet acc ⟨x, s.y, z⟩ cs))
      ([] : List (IVec3 × CachedSection)) pre with
  | error e => rfl
  | ok acc =>
    simp only [List.foldlM_cons, hskip]
    rfl

/-- C5 witness: a section with no block_states tag, spliced between two
decodable sections, is skipped and the rest of the chunk decodes as if it
were not there. -/
theorem empty_block_states_skipped_witness :
    (sSkip.block_states = none ∨ ∃ bs, sSkip.block_states = some bs ∧ bs.numTags = 0) ∧
    sectionsOfChunk 0 0 ([sGoodA] ++ sSkip :: [sGoodB]) = sectionsOfChunk 0 0 ([sGoodA] ++ [sGoodB]) :=
  ⟨Or.inl rfl, empty_block_states_skipped 0 0 [sGoodA] [sGoodB] sSkip (Or.inl rfl)⟩

/-- C9: a section whose palettes have exactly one entry and whose backing
word sequences are absent decodes without error into a constant-valued
section: every block lookup in [0, 4095] and every biome lookup in
[0, 63] returns the sole palette entry. -/
theorem single_entry_palette_constant (s : SectionNBT) (x z : Int) (bp : BlockState) (bio : String)
    (hbs : s.block_states = some (PaletteNode.mk (some [bp]) none))
    (hbio : s.biomes = some (PaletteNode.mk (some [bio]) none)) :
    ∃ cs : CachedSection, decodeSection x z s = Except.ok (some cs) ∧
      (∀ i : Int, 0 ≤ i → i < 4096 → cs.getBlockCompoundAtIndex i = Except.ok bp) ∧
      (∀ i : Int, 0 ≤ i → i < 64 → cs.getBiomeAtIndex i = Except.ok bio) := by
  have hlog1 : ceilLog2 1 = 0 := by decide
  refine ⟨CachedSection.mk ⟨x, s.y, z⟩ [bp] (BitArray.mk 4 (16 * 16 * 16) none) [bio]
    (BitArray.mk 1 64 none), ?_, ?_, ?_⟩
  · unfold decodeSection
    rw [hbs, hbio]
    simp [PaletteNode.numTags, hlog1]
  · intro i h0 h1
    unfold CachedSection.getBlockCompoundAtIndex BitArray.getAt
    rw [if_pos ⟨h0, by exact_mod_cast h1⟩]
    rfl
  · intro i h0 h1
    unfold CachedSection.getBiomeAtIndex BitArray.getAt
    rw [if_pos ⟨h0, by exact_mod_cast h1⟩]
    rfl

/-- C8: for a positively-sized requested rectangle, the derived chunk
rectangle has exactly the origin and size formulas of lines 55-58, it
covers the chunk of every world column inside the requested rectangle,
and when the requested origin is not 16-aligned on some axis its world
footprint strictly contains the requested rectangle. -/
theorem chunk_rect_formula_and_coverage (r : Rect) (hx : 0 < r.size.x) (hz : 0 < r.size.y) :
    (chunkRectOf r).offset = ⟨sar r.offset.x 4, sar r.offset.y 4⟩ ∧
    (chunkRectOf r).size =
      ⟨sar (r.offset.x + r.size.x - 1) 4 - sar r.offset.x 4 + 1,
       sar (r.offset.y + r.size.y - 1) 4 - sar r.offset.y 4 + 1⟩ ∧
    (∀ wx wz : Int,
        r.offset.x ≤ wx → wx < r.offset.x + r.size.x →
        r.offset.y ≤ wz → wz < r.offset.y + r.size.y →
        (chunkRectOf r).offset.x ≤ sar wx 4 ∧
        sar wx 4 < (chunkRectOf r).offset.x + (chunkRectOf r).size.x ∧
        (chunkRectOf r).offset.y ≤ sar wz 4 ∧
        sar wz 4 < (chunkRectOf r).offset.y + (chunkRectOf r).size.y) ∧
    ((¬ (16 : Int) ∣ r.offset.x ∨ ¬ (16 : Int) ∣ r.offset.y) →
      (∀ wx wz : Int,
          r.offset.x ≤ wx → wx < r.offset.x + r.size.x →
          r.offset.y ≤ wz → wz < r.offset.y + r.size.y →
          16 * (chunkRectOf r).offset.x ≤ wx ∧
          wx < 16 * ((chunkRectOf r).offset.x + (chunkRectOf r).size.x) ∧
          16 * (chunkRectOf r).offset.y ≤ wz ∧
          wz < 16 * ((chunkRectOf r).offset.y + (chunkRectOf r).size.y)) ∧
      (∃ wx wz : Int,
          (16 * (chunkRectOf r).offset.x ≤ wx ∧
           wx < 16 * ((chunkRectOf r).offset.x + (chunkRectOf r).size.x) ∧
           16 * (chunkRectOf r).offset.y ≤ wz ∧
           wz < 16 * ((chunkRectOf r).offset.y + (chunkRectOf r).size.y)) ∧
          ¬ (r.offset.x ≤ wx ∧ wx < r.offset.x + r.size.x ∧
             r.offset.y ≤ wz ∧ wz < r.offset.y + r.size.y))) := by
  have e1 : ∀ a : Int, sar a 4 = a / 16 := fun a => by norm_num [sar]
  refine ⟨rfl, rfl, ?_, ?_⟩
  · intro wx wz h1 h2 h3 h4
    simp only [chunkRectOf, e1]
    omega
  · intro hmis
    constructor
    · intro wx wz h1 h2 h3 h4
      simp only [chunkRectOf, e1]
      omega
    · rcases hmis with hmx | hmz
      · refine ⟨16 * (r.offset.x / 16), r.offset.y, ?_⟩
        simp only [chunkRectOf, e1]
        omega
      · refine ⟨r.offset.x, 16 * (r.offset.y / 16), ?_⟩
        simp only [chunkRectOf, e1]
        omega

/-- C8 witness: chunk_rect_formula_and_coverage applied to the rectangle
with origin (1, 0) (not chunk-aligned on X) and size (16, 16). -/
theorem chunk_rect_formula_and_coverage_witness :
    (0 : Int) < 16 ∧ (0 : Int) < 16 ∧
    ((chunkRectOf (Rect.mk ⟨1, 0⟩ ⟨16, 16⟩)).offset =
        ⟨sar (1 : Int) 4, sar (0 : Int) 4⟩ ∧
     (chunkRectOf (Rect.mk ⟨1, 0⟩ ⟨16, 16⟩)).size =
        ⟨sar ((1 : Int) + 16 - 1) 4 - sar (1 : Int) 4 + 1,
         sar ((0 : Int) + 16 - 1) 4 - sar (0 : Int) 4 + 1⟩ ∧
     (∀ wx wz : Int,
        (1 : Int) ≤ wx → wx < 1 + 16 → (0 : Int) ≤ wz → wz < 0 + 16 →
        (chunkRectOf (Rect.mk ⟨1, 0⟩ ⟨16, 16⟩)).offset.x ≤ sar wx 4 ∧
        sar wx 4 < (chunkRectOf (Rect.mk ⟨1, 0⟩ ⟨16, 16⟩)).offset.x +
            (chunkRectOf (Rect.mk ⟨1, 0⟩ ⟨16, 16⟩)).size.x ∧
        (chunkRectOf (Rect.mk ⟨1, 0⟩ ⟨16, 16⟩)).offset.y ≤ sar wz 4 ∧
        sar wz 4 < (chunkRectOf (Rect.mk ⟨1, 0⟩ ⟨16, 16⟩)).offset.y +
            (chunkRectOf (Rect.mk ⟨1, 0⟩ ⟨16, 16⟩)).size.y) ∧
     ((¬ (16 : Int) ∣ (1 : Int) ∨ ¬ (16 : Int) ∣ (0 : Int)) →
       (∀ wx wz : Int,
          (1 : Int) ≤ wx → wx < 1 + 16 → (0 : Int) ≤ wz → wz < 0 + 16 →
          16 * (chunkRectOf (Rect.mk ⟨1, 0⟩ ⟨16, 16⟩)).offset.x ≤ wx ∧
          wx < 16 * ((chunkRectOf (Rect.mk ⟨1, 0⟩ ⟨16, 16⟩)).offset.x +
              (chunkRectOf (Rect.mk ⟨1, 0⟩ ⟨16, 16⟩)).size.x) ∧
          16 * (chunkRectOf (Rect.mk ⟨1, 0⟩ ⟨16, 16⟩)).offset.y ≤ wz ∧
          wz < 16 * ((chunkRectOf (Rect.mk ⟨1, 0⟩ ⟨16, 16⟩)).offset.y +
              (chunkRectOf (Rect.mk ⟨1, 0⟩ ⟨16, 16⟩)).size.y)) ∧
       (∃ wx wz : Int,
          (16 * (chunkRectOf (Rect.mk ⟨1, 0⟩ ⟨16, 16⟩)).offset.x ≤ wx ∧
           wx < 16 * ((chunkRectOf (Rect.mk ⟨1, 0⟩ ⟨16, 16⟩)).offset.x +
               (chunkRectOf (Rect.mk ⟨1, 0⟩ ⟨16, 16⟩)).size.x) ∧
           16 * (chunkRectOf (Rect.mk ⟨1, 0⟩ ⟨16, 16⟩)).offset.y ≤ wz ∧
           wz < 16 * ((chunkRectOf (Rect.mk ⟨1, 0⟩ ⟨16, 16⟩)).offset.y +
               (chunkRectOf (Rect.mk ⟨1, 0⟩ ⟨16, 16⟩)).size.y)) ∧
          ¬ ((1 : Int) ≤ wx ∧ wx < 1 + 16 ∧ (0 : Int) ≤ wz ∧ wz < 0 + 16)))) :=
  ⟨by norm_num, by norm_num,
    chunk_rect_formula_and_coverage (Rect.mk ⟨1, 0⟩ ⟨16, 16⟩) (by norm_num) (by norm_num)⟩

/-- C9 witness: single_entry_palette_constant applied to a concrete
section node (and the lookups evaluated at the extreme indices). -/
theorem single_entry_palette_constant_witness :
    (sGoodA.block_states = some (PaletteNode.mk (some [BlockState.mk "minecraft:stone"]) none)) ∧
    (sGoodA.biomes = some (PaletteNode.mk (some ["minecraft:plains"]) none)) ∧
    ∃ cs : CachedSection, decodeSection 0 0 sGoodA = Except.ok (some cs) ∧
      (∀ i : Int, 0 ≤ i → i < 4096 → cs.getBlockCompoundAtIndex i = Except.ok (BlockState.mk "minecraft:stone")) ∧
      (∀ i : Int, 0 ≤ i → i < 64 → cs.getBiomeAtIndex i = Except.ok "minecraft:plains") :=
  ⟨rfl, rfl, single_entry_palette_constant sGoodA 0 0 (BlockState.mk "minecraft:stone")
    "minecraft:plains" rfl rfl⟩

theorem foldl_pres_cell (F : (Int × Int → Int) → Nat → (Int × Int → Int)) (c : Int × Int) :
    ∀ L : List Nat, (∀ x ∈ L, ∀ g, F g x c = g c) →
    ∀ g, List.foldl F g L c = g c := by
  intro L
  induction L with
  | nil => intro _ g; rfl
  | cons a L ih =>
    intro h g
    rw [List.foldl_cons, ih (fun x hx g2 => h x (List.mem_cons_of_mem a hx) g2) (F g a)]
    exact h a (List.mem_cons_self a L) g

theorem foldl_last_cell_aux (F : (Int × Int → Int) → Nat → (Int × Int → Int)) (c : Int × Int)
    (t : Nat) :
    ∀ k : Nat, (∀ x, t < x → x < t + 1 + k → ∀ g, F g x c = g c) →
    ∀ g0, List.foldl F g0 (List.range (t + 1 + k)) c = F (List.foldl F g0 (List.range t)) t c := by
  intro k
  induction k with
  | zero =>
    intro _ g0
    rw [show t + 1 + 0 = t + 1 from rfl, List.range_succ, List.foldl_append, List.foldl_cons,
      List.foldl_nil]
  | succ k ih =>
    intro hpres g0
    rw [show t + 1 + (k + 1) = (t + 1 + k) + 1 from rfl, List.range_succ, List.foldl_append,
      List.foldl_cons, List.foldl_nil]
    rw [hpres (t + 1 + k) (by omega) (by omega)]
    exact ih (fun x h1 h2 g => hpres x h1 (by omega) g) g0

theorem foldl_last_cell (F : (Int × Int → Int) → Nat → (Int × Int → Int)) (c : Int × Int)
    (n t : Nat) (ht : t < n) (hpres : ∀ x, t < x → x < n → ∀ g, F g x c = g c)
    (g0 : Int × Int → Int) :
    List.foldl F g0 (List.range n) c = F (List.foldl F g0 (List.range t)) t c := by
  obtain ⟨k, rfl⟩ : ∃ k, n = t + 1 + k := ⟨n - (t + 1), by omega⟩
  exact foldl_last_cell_aux F c t k hpres g0

theorem hm_getAt_ok (words : List Nat) (hlen : 37 ≤ words.length) (idx : Nat)
    (hidx : idx < 256) :
    ∃ v, (BitArray.mk 9 256 (some words)).getAt (Int.ofNat idx) = Except.ok v := by
  cases words with
  | nil => simp at hlen
  | cons w ws =>
    have hlt : idx / 7 < (w :: ws).length := by
      simp only [List.length_cons] at hlen ⊢
      omega
    unfold BitArray.getAt
    rw [if_pos ⟨Int.ofNat_nonneg idx, by rw [Int.ofNat_eq_natCast]; exact_mod_cast hidx⟩]
    simp only [BitArray.entriesPerWord, show ∀ m : Nat, (Int.ofNat m).toNat = m from fun _ => rfl,
      show (64 : Nat) / 9 = 7 from by norm_num]
    rw [List.get?_eq_get hlt]
    exact ⟨_, rfl⟩

set_option maxRecDepth 8000 in
theorem hmStep_eq (rect : Rect) (hmData : Nat → List Nat) (sX : Nat) (g : Int × Int → Int)
    (x z cz cx : Nat) :
    hmStep rect hmData sX g (x, z, cz, cx)
      = match (BitArray.mk 9 256 (some (hmData (x + z * sX)))).getAt (Int.ofNat (cz * 16 + cx)) with
        | Except.error _ => g
        | Except.ok v =>
          hmWrite rect.size.x rect.size.y g
            (-(trueMod rect.offset.x 16) + (x : Int) * 16 + (cx : Int))
            (-(trueMod rect.offset.y 16) + (z : Int) * 16 + (cz : Int))
            ((v : Int) + BUILD_Y_MIN) := rfl

theorem hmStep_writes (rect : Rect) (hmData : Nat → List Nat) (sX : Nat)
    (a b : Int) (ha0 : 0 ≤ a) (ha1 : a < rect.size.x) (hb0 : 0 ≤ b) (hb1 : b < rect.size.y)
    (x z cz cx : Nat)
    (hdx : -(trueMod rect.offset.x 16) + (x : Int) * 16 + (cx : Int) = a)
    (hdz : -(trueMod rect.offset.y 16) + (z : Int) * 16 + (cz : Int) = b)
    (v : Nat)
    (hv : (BitArray.mk 9 256 (some (hmData (x + z * sX)))).getAt (Int.ofNat (cz * 16 + cx))
      = Except.ok v)
    (g : Int × Int → Int) :
    hmStep rect hmData sX g (x, z, cz, cx) (a, b) = (v : Int) + BUILD_Y_MIN := by
  rw [hmStep_eq, hv]
  show hmWrite rect.size.x rect.size.y g
    (-(trueMod rect.offset.x 16) + (x : Int) * 16 + (cx : Int))
    (-(trueMod rect.offset.y 16) + (z : Int) * 16 + (cz : Int))
    ((v : Int) + BUILD_Y_MIN) (a, b) = (v : Int) + BUILD_Y_MIN
  unfold hmWrite
  rw [hdx, hdz]
  have hcond : ((-rect.size.x ≤ a ∧ a < rect.size.x) ∧ (-rect.size.y ≤ b ∧ b < rect.size.y)) :=
    ⟨⟨by omega, ha1⟩, ⟨by omega, hb1⟩⟩
  rw [if_pos hcond]
  rw [if_neg (not_lt.mpr ha0), if_neg (not_lt.mpr hb0)]
  show (if ((a, b) : Int × Int) = (a, b) then (v : Int) + BUILD_Y_MIN else g (a, b))
    = (v : Int) + BUILD_Y_MIN
  rw [if_pos rfl]

theorem hmStep_pres_dx (rect : Rect) (hmData : Nat → List Nat) (sX : Nat)
    (a b : Int) (x z cz cx : Nat)
    (hdx1 : -(trueMod rect.offset.x 16) + (x : Int) * 16 + (cx : Int) ≠ a)
    (hdx2 : -(trueMod rect.offset.x 16) + (x : Int) * 16 + (cx : Int) ≠ a - rect.size.x)
    (g : Int × Int → Int) :
    hmStep rect hmData sX g (x, z, cz, cx) (a, b) = g (a, b) := by
  rw [hmStep_eq]
  cases hv : (BitArray.mk 9 256 (some (hmData (x + z * sX)))).getAt (Int.ofNat (cz * 16 + cx)) with
  | error e => rfl
  | ok v =>
    simp only []
    unfold hmWrite
    split
    · simp only []
      rw [if_neg]
      intro heq
      rw [Prod.mk.injEq] at heq
      obtain ⟨h1, h2⟩ := heq
      by_cases hdlt : -(trueMod rect.offset.x 16) + (x : Int) * 16 + (cx : Int) < 0
      · rw [if_pos hdlt] at h1
        exact hdx2 (by omega)
      · rw [if_neg hdlt] at h1
        exact hdx1 (by omega)
    · rfl

theorem hmStep_pres_dz (rect : Rect) (hmData : Nat → List Nat) (sX : Nat)
    (a b : Int) (x z cz cx : Nat)
    (hdz1 : -(trueMod rect.offset.y 16) + (z : Int) * 16 + (cz : Int) ≠ b)
    (hdz2 : -(trueMod rect.offset.y 16) + (z : Int) * 16 + (cz : Int) ≠ b - rect.size.y)
    (g : Int × Int → Int) :
    hmStep rect hmData sX g (x, z, cz, cx) (a, b) = g (a, b) := by
  rw [hmStep_eq]
  cases hv : (BitArray.mk 9 256 (some (hmData (x + z * sX)))).getAt (Int.ofNat (cz * 16 + cx)) with
  | error e => rfl
  | ok v =>
    simp only []
    unfold hmWrite
    split
    · simp only []
      rw [if_neg]
      intro heq
      rw [Prod.mk.injEq] at heq
      obtain ⟨h1, h2⟩ := heq
      by_cases hdlt : -(trueMod rect.offset.y 16) + (z : Int) * 16 + (cz : Int) < 0
      · rw [if_pos hdlt] at h2
        exact hdz2 (by omega)
      · rw [if_neg hdlt] at h2
        exact hdz1 (by omega)
    · rfl

/-- C4: for a positively-sized rectangle and well-formed heightmap data
(each chunk supplying at least ceil(256 / 7) = 37 packed words, the
format's invariant), the final heightmap grid value at every in-bounds
cell (a, b) equals the raw packed 9-bit value of the chunk column
covering that world column, plus BUILD_Y_MIN; since the value is fully
determined by that one chunk column's data, writes aimed outside the grid
(from the chunk-aligned over-fetch at the edges) never affect the final
value of an in-bounds cell. -/
theorem heightmap_final_values (rect : Rect) (hmData : Nat → List Nat)
    (hx : 0 < rect.size.x) (hz : 0 < rect.size.y)
    (hwords : ∀ cid, 37 ≤ (hmData cid).length)
    (a b : Int) (ha0 : 0 ≤ a) (ha1 : a < rect.size.x) (hb0 : 0 ≤ b) (hb1 : b < rect.size.y) :
    ∃ v : Nat,
      (BitArray.mk 9 256 (some (hmData
          ((a + trueMod rect.offset.x 16).toNat / 16
            + (b + trueMod rect.offset.y 16).toNat / 16
              * (chunkRectOf rect).size.x.toNat)))).getAt
        (Int.ofNat ((b + trueMod rect.offset.y 16).toNat % 16 * 16
          + (a + trueMod rect.offset.x 16).toNat % 16))
        = Except.ok v ∧
      heightmapFor rect hmData (a, b) = (v : Int) + BUILD_Y_MIN := by
  have hoxe : trueMod rect.offset.x 16 = rect.offset.x % 16 := rfl
  have hoze : trueMod rect.offset.y 16 = rect.offset.y % 16 := rfl
  have hA : (((a + trueMod rect.offset.x 16).toNat : Nat) : Int)
      = a + trueMod rect.offset.x 16 := by
    rw [hoxe]
    omega
  have hB : (((b + trueMod rect.offset.y 16).toNat : Nat) : Int)
      = b + trueMod rect.offset.y 16 := by
    rw [hoze]
    omega
  have hsX : (((chunkRectOf rect).size.x.toNat : Nat) : Int)
      = (rect.offset.x + rect.size.x - 1) / 16 - rect.offset.x / 16 + 1 := by
    have h1 : (chunkRectOf rect).size.x
        = (rect.offset.x + rect.size.x - 1) / 16 - rect.offset.x / 16 + 1 := by
      show sar (rect.offset.x + rect.size.x - 1) 4 - sar rect.offset.x 4 + 1 = _
      norm_num [sar]
    rw [h1]
    omega
  have hsZ : (((chunkRectOf rect).size.y.toNat : Nat) : Int)
      = (rect.offset.y + rect.size.y - 1) / 16 - rect.offset.y / 16 + 1 := by
    have h1 : (chunkRectOf rect).size.y
        = (rect.offset.y + rect.size.y - 1) / 16 - rect.offset.y / 16 + 1 := by
      show sar (rect.offset.y + rect.size.y - 1) 4 - sar rect.offset.y 4 + 1 = _
      norm_num [sar]
    rw [h1]
    omega
  have hxcb : (a + trueMod rect.offset.x 16).toNat / 16 < (chunkRectOf rect).size.x.toNat := by
    omega
  have hzcb : (b + trueMod rect.offset.y 16).toNat / 16 < (chunkRectOf rect).size.y.toNat := by
    omega
  have hdxc : -(trueMod rect.offset.x 16)
      + (((a + trueMod rect.offset.x 16).toNat / 16 : Nat) : Int) * 16
      + (((a + trueMod rect.offset.x 16).toNat % 16 : Nat) : Int) = a := by
    omega
  have hdzc : -(trueMod rect.offset.y 16)
      + (((b + trueMod rect.offset.y 16).toNat / 16 : Nat) : Int) * 16
      + (((b + trueMod rect.offset.y 16).toNat % 16 : Nat) : Int) = b := by
    omega
  obtain ⟨v, hv⟩ := hm_getAt_ok
    (hmData ((a + trueMod rect.offset.x 16).toNat / 16
      + (b + trueMod rect.offset.y 16).toNat / 16 * (chunkRectOf rect).size.x.toNat))
    (hwords _)
    ((b + trueMod rect.offset.y 16).toNat % 16 * 16 + (a + trueMod rect.offset.x 16).toNat % 16)
    (by omega)
  refine ⟨v, hv, ?_⟩
  have hpresX : ∀ xx, (a + trueMod rect.offset.x 16).toNat / 16 < xx →
      xx < (chunkRectOf rect).size.x.toNat → ∀ g,
      (List.range (chunkRectOf rect).size.y.toNat).foldl
        (fun g z =>
          (List.range 16).foldl
            (fun g cz =>
              (List.range 16).foldl
                (fun g cx =>
                  hmStep rect hmData (chunkRectOf rect).size.x.toNat g (xx, z, cz, cx))
                g)
            g)
        g (a, b) = g (a, b) := by
    intro xx hx1 hx2 g
    apply foldl_pres_cell
    intro zz hzz g2
    apply foldl_pres_cell
    intro cz hcz g3
    apply foldl_pres_cell
    intro cx hcx g4
    have hcx16 : cx < 16 := List.mem_range.mp hcx
    apply hmStep_pres_dx
    · omega
    · omega
  have hpresZ : ∀ zz, (b + trueMod rect.offset.y 16).toNat / 16 < zz →
      zz < (chunkRectOf rect).size.y.toNat → ∀ g,
      (List.range 16).foldl
        (fun g cz =>
          (List.range 16).foldl
            (fun g cx =>
              hmStep rect hmData (chunkRectOf rect).size.x.toNat g
                ((a + trueMod rect.offset.x 16).toNat / 16, zz, cz, cx))
            g)
        g (a, b) = g (a, b) := by
    intro zz hz1 hz2 g
    apply foldl_pres_cell
    intro cz hcz g2
    apply foldl_pres_cell
    intro cx hcx g3
    have hcz16 : cz < 16 := List.mem_range.mp hcz
    apply hmStep_pres_dz
    · omega
    · omega
  have hpresCZ : ∀ cz, (b + trueMod rect.offset.y 16).toNat % 16 < cz → cz < 16 → ∀ g,
      (List.range 16).foldl
        (fun g cx =>
          hmStep rect hmData (chunkRectOf rect).size.x.toNat g
            ((a + trueMod rect.offset.x 16).toNat / 16,
             (b + trueMod rect.offset.y 16).toNat / 16, cz, cx))
        g (a, b) = g (a, b) := by
    intro cz hc1 hc2 g
    apply foldl_pres_cell
    intro cx hcx g2
    apply hmStep_pres_dz
    · omega
    · omega
  have hpresCX : ∀ cx, (a + trueMod rect.offset.x 16).toNat % 16 < cx → cx < 16 → ∀ g,
      hmStep rect hmData (chunkRectOf rect).size.x.toNat g
        ((a + trueMod rect.offset.x 16).toNat / 16,
         (b + trueMod rect.offset.y 16).toNat / 16,
         (b + trueMod rect.offset.y 16).toNat % 16, cx) (a, b) = g (a, b) := by
    intro cx hc1 hc2 g
    apply hmStep_pres_dx
    · omega
    · omega
  have step1 := foldl_last_cell
    (fun g x =>
      (List.range (chunkRectOf rect).size.y.toNat).foldl
        (fun g z =>
          (List.range 16).foldl
            (fun g cz =>
              (List.range 16).foldl
                (fun g cx =>
                  hmStep rect hmData (chunkRectOf rect).size.x.toNat g (x, z, cz, cx))
                g)
            g)
        g)
    (a, b) (chunkRectOf rect).size.x.toNat ((a + trueMod rect.offset.x 16).toNat / 16)
    hxcb hpresX (fun _ => 0)
  have step2 := foldl_last_cell
    (fun g z =>
      (List.range 16).foldl
        (fun g cz =>
          (List.range 16).foldl
            (fun g cx =>
              hmStep rect hmData (chunkRectOf rect).size.x.toNat g
                ((a + trueMod rect.offset.x 16).toNat / 16, z, cz, cx))
            g)
        g)
    (a, b) (chunkRectOf rect).size.y.toNat ((b + trueMod rect.offset.y 16).toNat / 16)
    hzcb hpresZ
    (List.foldl
      (fun g x =>
        (List.range (chunkRectOf rect).size.y.toNat).foldl
          (fun g z =>
            (List.range 16).foldl
              (fun g cz =>
                (List.range 16).foldl
                  (fun g cx =>
                    hmStep rect hmData (chunkRectOf rect).size.x.toNat g (x, z, cz, cx))
                  g)
              g)
          g)
      (fun _ => 0)
      (List.range ((a + trueMod rect.offset.x 16).toNat / 16)))
  have step3 := foldl_last_cell
    (fun g cz =>
      (List.range 16).foldl
        (fun g cx =>
          hmStep rect hmData (chunkRectOf rect).size.x.toNat g
            ((a + trueMod rect.offset.x 16).toNat / 16,
             (b + trueMod rect.offset.y 16).toNat / 16, cz, cx))
        g)
    (a, b) 16 ((b + trueMod rect.offset.y 16).toNat % 16)
    (by omega) hpresCZ
    (List.foldl
      (fun g z =>
        (List.range 16).foldl
          (fun g cz =>
            (List.range 16).foldl
              (fun g cx =>
                hmStep rect hmData (chunkRectOf rect).size.x.toNat g
                  ((a + trueMod rect.offset.x 16).toNat / 16, z, cz, cx))
              g)
          g)
      (List.foldl
        (fun g x =>
          (List.range (chunkRectOf rect).size.y.toNat).foldl
            (fun g z =>
              (List.range 16).foldl
                (fun g cz =>
                  (List.range 16).foldl
                    (fun g cx =>
                      hmStep rect hmData (chunkRectOf rect).size.x.toNat g (x, z, cz, cx))
                    g)
                g)
            g)
        (fun _ => 0)
        (List.range ((a + trueMod rect.offset.x 16).toNat / 16)))
      (List.range ((b + trueMod rect.offset.y 16).toNat / 16)))
  have step4 := foldl_last_cell
    (fun g cx =>
      hmStep rect hmData (chunkRectOf rect).size.x.toNat g
        ((a + trueMod rect.offset.x 16).toNat / 16,
         (b + trueMod rect.offset.y 16).toNat / 16,
         (b + trueMod rect.offset.y 16).toNat % 16, cx))
    (a, b) 16 ((a + trueMod rect.offset.x 16).toNat % 16)
    (by omega) hpresCX
    (List.foldl
      (fun g cz =>
        (List.range 16).foldl
          (fun g cx =>
            hmStep rect hmData (chunkRectOf rect).size.x.toNat g
              ((a + trueMod rect.offset.x 16).toNat / 16,
               (b + trueMod rect.offset.y 16).toNat / 16, cz, cx))
          g)
      (List.foldl
        (fun g z =>
          (List.range 16).foldl
            (fun g cz =>
              (List.range 16).foldl
                (fun g cx =>
                  hmStep rect hmData (chunkRectOf rect).size.x.toNat g
                    ((a + trueMod rect.offset.x 16).toNat / 16, z, cz, cx))
                g)
            g)
        (List.foldl
          (fun g x =>
            (List.range (chunkRectOf rect).size.y.toNat).foldl
              (fun g z =>
                (List.range 16).foldl
                  (fun g cz =>
                    (List.range 16).foldl
                      (fun g cx =>
                        hmStep rect hmData (chunkRectOf rect).size.x.toNat g (x, z, cz, cx))
                      g)
                  g)
              g)
          (fun _ => 0)
          (List.range ((a + trueMod rect.offset.x 16).toNat / 16)))
        (List.range ((b + trueMod rect.offset.y 16).toNat / 16)))
      (List.range ((b + trueMod rect.offset.y 16).toNat % 16)))
  have step5 := hmStep_writes rect hmData (chunkRectOf rect).size.x.toNat a b ha0 ha1 hb0 hb1
    ((a + trueMod rect.offset.x 16).toNat / 16)
    ((b + trueMod rect.offset.y 16).toNat / 16)
    ((b + trueMod rect.offset.y 16).toNat % 16)
    ((a + trueMod rect.offset.x 16).toNat % 16)
    hdxc hdzc v hv
    (List.foldl
      (fun g cx =>
        hmStep rect hmData (chunkRectOf rect).size.x.toNat g
          ((a + trueMod rect.offset.x 16).toNat / 16,
           (b + trueMod rect.offset.y 16).toNat / 16,
           (b + trueMod rect.offset.y 16).toNat % 16, cx))
      (List.foldl
        (fun g cz =>
          (List.range 16).foldl
            (fun g cx =>
              hmStep rect hmData (chunkRectOf rect).size.x.toNat g
                ((a + trueMod rect.offset.x 16).toNat / 16,
                 (b + trueMod rect.offset.y 16).toNat / 16, cz, cx))
            g)
        (List.foldl
          (fun g z =>
            (List.range 16).foldl
              (fun g cz =>
                (List.range 16).foldl
                  (fun g cx =>
                    hmStep rect hmData (chunkRectOf rect).size.x.toNat g
                      ((a + trueMod rect.offset.x 16).toNat / 16, z, cz, cx))
                  g)
              g)
          (List.foldl
            (fun g x =>
              (List.range (chunkRectOf rect).size.y.toNat).foldl
                (fun g z =>
                  (List.range 16).foldl
                    (fun g cz =>
                      (List.range 16).foldl
                        (fun g cx =>
                          hmStep rect hmData (chunkRectOf rect).size.x.toNat g (x, z, cz, cx))
                        g)
                    g)
                g)
            (fun _ => 0)
            (List.range ((a + trueMod rect.offset.x 16).toNat / 16)))
          (List.range ((b + trueMod rect.offset.y 16).toNat / 16)))
        (List.range ((b + trueMod rect.offset.y 16).toNat % 16)))
      (List.range ((a + trueMod rect.offset.x 16).toNat % 16)))
  exact step1.trans (step2.trans (step3.trans (step4.trans step5)))

/-- C4 witness: heightmap_final_values applied to the 1 by 1 rectangle at
the origin with all-zero heightmap words. -/
theorem heightmap_final_values_witness :
    (0 : Int) < 1 ∧
    (∀ cid : Nat, 37 ≤ (((fun _ => List.replicate 37 0) : Nat → List Nat) cid).length) ∧
    (∃ v : Nat,
      (BitArray.mk 9 256 (some (((fun _ => List.replicate 37 0) : Nat → List Nat)
          (((0 : Int) + trueMod (Rect.mk ⟨0, 0⟩ ⟨1, 1⟩).offset.x 16).toNat / 16
            + ((0 : Int) + trueMod (Rect.mk ⟨0, 0⟩ ⟨1, 1⟩).offset.y 16).toNat / 16
              * (chunkRectOf (Rect.mk ⟨0, 0⟩ ⟨1, 1⟩)).size.x.toNat)))).getAt
        (Int.ofNat (((0 : Int) + trueMod (Rect.mk ⟨0, 0⟩ ⟨1, 1⟩).offset.y 16).toNat % 16 * 16
          + ((0 : Int) + trueMod (Rect.mk ⟨0, 0⟩ ⟨1, 1⟩).offset.x 16).toNat % 16))
        = Except.ok v ∧
      heightmapFor (Rect.mk ⟨0, 0⟩ ⟨1, 1⟩) (fun _ => List.replicate 37 0) ((0 : Int), (0 : Int))
        = (v : Int) + BUILD_Y_MIN) :=
  ⟨by norm_num, fun cid => by simp,
    heightmap_final_values (Rect.mk ⟨0, 0⟩ ⟨1, 1⟩) (fun _ => List.replicate 37 0)
      (by norm_num) (by norm_num) (fun cid => by simp) 0 0 (by norm_num) (by norm_num)
      (by norm_num) (by norm_num)⟩

end Gdpc
